import Mathlib

/-!
Verification of the DynamicTable backend (Go) against its natural-language
specification.  The Go source is shallowly embedded: every definition below
mirrors a concrete function of the repository (file and function named in its
doc comment).  JSON documents are modelled by the inductive `Jval`, Go maps
`map[string]interface{}` by association lists in iteration order, the
PostgreSQL store by plain lists of rows, and Go panics (nil dereference,
out-of-range slicing) by an explicit `GoResult.panicked` constructor.
-/

namespace DynamicTable

set_option maxHeartbeats 1000000

/-- A JSON-compatible value, the payload type of a record's value map
(`map[string]interface{}` in `backend/models/models.go`).  Numbers are
modelled as integers. -/
inductive Jval where
  | null
  | bool (b : Bool)
  | num (n : Int)
  | str (s : String)
  | arr (xs : List Jval)
  | obj (fs : List (String × Jval))

/-- A record's value map: Go `map[string]interface{}`, modelled as an
association list in iteration order (keys assumed distinct, as in a Go map). -/
abbrev ValueMap := List (String × Jval)

/-- Go map read `m[k]` (first binding of `k`). -/
def lookupKey (m : ValueMap) (k : String) : Option Jval :=
  (m.find? (fun kv => kv.1 == k)).map (·.2)

/-- Go map membership test `_, exists := m[k]`. -/
def hasKey (m : ValueMap) (k : String) : Bool :=
  (lookupKey m k).isSome

/-- Go map write `m[k] = v`: replace the binding if present, append otherwise. -/
def setKey : ValueMap → String → Jval → ValueMap
  | [], k, v => [(k, v)]
  | (k', v') :: rest, k, v =>
    if k' == k then (k, v) :: rest else (k', v') :: setKey rest k v

/-- JSON string escaping of one character (quote and backslash), as in the
text rendering of a `jsonb` document. -/
def jsonEscapeC (c : Char) : String :=
  if c = '"' then "\\\"" else if c = '\\' then "\\\\" else String.singleton c

/-- JSON string escaping. -/
def jsonEscape (s : String) : String :=
  s.data.foldl (fun acc c => acc ++ jsonEscapeC c) ""

mutual

/-- Text rendering of a JSON document: the model of PostgreSQL's
`values::text` cast of a `jsonb` column (`content_repository.go`, search
clause `values::text ILIKE $n`).  Key order is modelled as stored order. -/
def renderJ : Jval → String
  | .null => "null"
  | .bool b => if b then "true" else "false"
  | .num n => toString n
  | .str s => "\"" ++ jsonEscape s ++ "\""
  | .arr xs => "[" ++ renderL xs ++ "]"
  | .obj fs => "\x7b" ++ renderO fs ++ "\x7d"

/-- Renders the elements of a JSON array, `", "`-separated. -/
def renderL : List Jval → String
  | [] => ""
  | [x] => renderJ x
  | x :: y :: xs => renderJ x ++ ", " ++ renderL (y :: xs)

/-- Renders the members of a JSON object, `", "`-separated. -/
def renderO : List (String × Jval) → String
  | [] => ""
  | [(k, v)] => "\"" ++ jsonEscape k ++ "\": " ++ renderJ v
  | (k, v) :: f :: fs =>
    "\"" ++ jsonEscape k ++ "\": " ++ renderJ v ++ ", " ++ renderO (f :: fs)

end

/-- PostgreSQL `->>` text extraction of a single JSON value: strings are
unquoted, `null` becomes SQL `NULL` (`none`), everything else renders as its
JSON text. -/
def jvalText : Jval → Option String
  | .null => none
  | .bool b => some (if b then "true" else "false")
  | .num n => some (toString n)
  | .str s => some s
  | .arr xs => some (renderJ (.arr xs))
  | .obj fs => some (renderJ (.obj fs))

/-- PostgreSQL `values->>key`: `NULL` when the key is absent or its value is
JSON `null`. -/
def jsonGetText (m : ValueMap) (k : String) : Option String :=
  match lookupKey m k with
  | none => none
  | some v => jvalText v

/-- Conversion of a Go `interface{}` value to a SQL text parameter by the
database driver (`lib/pq`): strings, numbers and booleans become text, `nil`
becomes SQL `NULL`, and slices/maps are rejected with an error. -/
def paramText : Jval → Except Unit (Option String)
  | .null => .ok none
  | .bool b => .ok (some (if b then "true" else "false"))
  | .num n => .ok (some (toString n))
  | .str s => .ok (some s)
  | .arr _ => .error ()
  | .obj _ => .error ()

/-! ### Data model (`backend/models/models.go`) -/

/-- `models.RelationConfig`. -/
structure RelationConfig where
  relationType : String
  relatedTable : String
  relatedField : String
  displayField : String
  allowMultiple : Bool

/-- `models.Field`. -/
structure Field where
  name : String
  label : String
  dataType : String
  dataValidation : String
  required : Bool
  options : List String
  relationConfig : Option RelationConfig

/-- `models.Schema` (timestamps as abstract clock readings). -/
structure Schema where
  id : String
  tableSlug : String
  tableName : String
  fields : List Field
  createdAt : Nat
  updatedAt : Nat

/-- One row of the `contents` store (`models.Content`). -/
structure ContentRow where
  id : String
  tableSlug : String
  values : ValueMap
  createdAt : Nat
  updatedAt : Nat

/-- `models.ContentQueryParams`.  Go's `map[string]string` of filters is
modelled as an association list in iteration order. -/
structure ContentQueryParams where
  search : String
  filters : List (String × String)
  sortBy : String
  sortDir : String
  page : Int
  pageSize : Int

/-- `models.ContentResponse`. -/
structure ContentResponse where
  contents : List ContentRow
  total : Int
  page : Int
  pageSize : Int
  totalPages : Int

/-- Outcome of running a piece of Go code that may panic (nil-pointer
dereference, out-of-range slicing). -/
inductive GoResult (α : Type) where
  | ok (a : α)
  | panicked

/-- HTTP-level outcome written by a gin handler. -/
inductive HandlerResult (α : Type) where
  | ok (a : α)
  | badRequest (msg : String)
  | notFound (msg : String)
  | serverError (msg : String)

/-! ### Field validator (`backend/handlers/content_handler.go`,
`validateContentAgainstSchema`) -/

/-- Result of `validateContentAgainstSchema`: success, a `400` error naming a
missing required field, a `400` error naming an unknown field, or a Go panic
(the source slices `key[:1]`, which panics on an empty key). -/
inductive ValidateResult where
  | ok
  | errMissing (name : String)
  | errUnknown (key : String)
  | panicked

/-- The second loop of `validateContentAgainstSchema`: for each key of the
value map (iteration order of the Go map modelled as list order), if no field
definition bears that name and the key does not start with `"_"`, fail; the
prefix test is Go's `key[:1] != "_"`, which panics when `key` is empty. -/
def checkKeys (fields : List Field) : List String → ValidateResult
  | [] => .ok
  | k :: ks =>
    if fields.any (fun f => f.name == k) then checkKeys fields ks
    else
      match k.data with
      | [] => .panicked
      | c :: _ => if c ≠ '_' then .errUnknown k else checkKeys fields ks

/-- `validateContentAgainstSchema(values, fields)`
(`backend/handlers/content_handler.go:224`): first reject on the first
required field whose name is absent from the value map, then scan the value
map's keys with `checkKeys`. -/
def validateContentAgainstSchema (values : ValueMap) (fields : List Field) :
    ValidateResult :=
  match fields.find? (fun f => f.required && !(hasKey values f.name)) with
  | some f => .errMissing f.name
  | none => checkKeys fields (values.map (·.1))

/-! ### SQL `ILIKE` (search clause of `GetContentsByTableSlug`) -/

/-- ASCII lower-casing of one character: the model of the case folding
PostgreSQL's `ILIKE` applies to both operands. -/
def lowerC (c : Char) : Char :=
  match c with
  | 'A' => 'a' | 'B' => 'b' | 'C' => 'c' | 'D' => 'd' | 'E' => 'e' | 'F' => 'f'
  | 'G' => 'g' | 'H' => 'h' | 'I' => 'i' | 'J' => 'j' | 'K' => 'k' | 'L' => 'l'
  | 'M' => 'm' | 'N' => 'n' | 'O' => 'o' | 'P' => 'p' | 'Q' => 'q' | 'R' => 'r'
  | 'S' => 's' | 'T' => 't' | 'U' => 'u' | 'V' => 'v' | 'W' => 'w' | 'X' => 'x'
  | 'Y' => 'y' | 'Z' => 'z'
  | c => c

/-- Fuel-driven core of SQL `LIKE` pattern matching over characters: `%`
matches any sequence, `_` any single character, `\` escapes the next pattern
character; a pattern ending in a bare `\` matches nothing (PostgreSQL raises
an error there).  Every step shortens `pattern.length + text.length`, so any
fuel above that bound computes the match (`likeAux_eq` below). -/
def likeAux : Nat → List Char → List Char → Bool
  | 0, _, _ => false
  | fuel + 1, ps, ts =>
    match ps with
    | [] => ts.isEmpty
    | p :: ps' =>
      if p = '%' then
        likeAux fuel ps' ts ||
          (match ts with
           | [] => false
           | _ :: ts' => likeAux fuel ps ts')
      else if p = '\\' then
        match ps' with
        | [] => false
        | c :: ps'' =>
          match ts with
          | [] => false
          | t :: ts' => t == c && likeAux fuel ps'' ts'
      else if p = '_' then
        match ts with
        | [] => false
        | _ :: ts' => likeAux fuel ps' ts'
      else
        match ts with
        | [] => false
        | t :: ts' => t == p && likeAux fuel ps' ts'

/-- SQL `LIKE` pattern matching (`likeAux` with sufficient fuel). -/
def likeMatch (ps ts : List Char) : Bool :=
  likeAux (ps.length + ts.length + 1) ps ts

/-- `doc ILIKE pat`: `LIKE` after ASCII case folding of both sides. -/
def ilike (doc pat : String) : Bool :=
  likeMatch (pat.data.map lowerC) (doc.data.map lowerC)

/-! ### Query translator (`backend/repository/content_repository.go`,
`GetContentsByTableSlug`) -/

/-- One bound query parameter handed to `database/sql` (strings or Go ints). -/
inductive Arg where
  | str (s : String)
  | int (n : Int)
  deriving DecidableEq

/-- The search clause appended to `baseQuery` when `params.Search != ""`
(`content_repository.go:79`): text fragment, bound arguments, next `$n`
index. -/
def searchClause (search : String) (i : Nat) : String × List Arg × Nat :=
  if search = "" then ("", [], i)
  else (" AND (\n\t\t\tvalues::text ILIKE $" ++ toString i ++ "\n\t\t)",
        [Arg.str ("%" ++ search ++ "%")], i + 1)

/-- The filter clauses appended to `baseQuery` (`content_repository.go:90`):
for each filter with a non-empty value, ` AND values->>$n = $m` with the field
name and the value both bound. -/
def filterClauses : List (String × String) → Nat → String × List Arg × Nat
  | [], i => ("", [], i)
  | (name, value) :: rest, i =>
    if value = "" then filterClauses rest i
    else
      let r := filterClauses rest (i + 2)
      (" AND values->>$" ++ toString i ++ " = $" ++ toString (i + 1) ++ r.1,
       Arg.str name :: Arg.str value :: r.2.1, r.2.2)

/-- The `WHERE` part shared by the count and select queries
(`content_repository.go:74-99`): text, bound arguments (starting with the
table slug), next `$n` index. -/
def baseQuery (tableSlug : String) (p : ContentQueryParams) :
    String × List Arg × Nat :=
  let s := searchClause p.search 2
  let f := filterClauses p.filters s.2.2
  ("FROM contents WHERE table_slug = $1" ++ s.1 ++ f.1,
   Arg.str tableSlug :: s.2.1 ++ f.2.1, f.2.2)

/-- ASCII upper-casing of one character (model of `strings.ToUpper`). -/
def upperC (c : Char) : Char :=
  match c with
  | 'a' => 'A' | 'b' => 'B' | 'c' => 'C' | 'd' => 'D' | 'e' => 'E' | 'f' => 'F'
  | 'g' => 'G' | 'h' => 'H' | 'i' => 'I' | 'j' => 'J' | 'k' => 'K' | 'l' => 'L'
  | 'm' => 'M' | 'n' => 'N' | 'o' => 'O' | 'p' => 'P' | 'q' => 'Q' | 'r' => 'R'
  | 's' => 'S' | 't' => 'T' | 'u' => 'U' | 'v' => 'V' | 'w' => 'W' | 'x' => 'X'
  | 'y' => 'Y' | 'z' => 'Z'
  | c => c

/-- ASCII `strings.ToUpper`. -/
def strUpper (s : String) : String :=
  ⟨s.data.map upperC⟩

/-- Normalisation of the requested sort direction
(`content_repository.go:105-108`): `DESC` exactly when the upper-cased
direction is `"DESC"`, else `ASC`. -/
def sortDirNorm (sortDir : String) : String :=
  if strUpper sortDir = "DESC" then "DESC" else "ASC"

/-- The `ORDER BY` fragment (`content_repository.go:102-118`): default
`created_at DESC`; a `sortBy` of `created_at`/`updated_at` orders by that
column; any other non-empty `sortBy` is string-interpolated into
`values->>'…'`. -/
def orderByClause (p : ContentQueryParams) : String :=
  if p.sortBy = "" then "created_at DESC"
  else
    let d := sortDirNorm p.sortDir
    if p.sortBy = "created_at" ∨ p.sortBy = "updated_at" then
      p.sortBy ++ " " ++ d
    else
      "values->>'" ++ p.sortBy ++ "' " ++ d

/-- Text of the count query (`content_repository.go:121`). -/
def countQueryText (p : ContentQueryParams) : String :=
  "SELECT COUNT(*) " ++ (baseQuery "" p).1

/-- Effective page: `if params.Page < 1 { params.Page = 1 }`
(`content_repository.go:129`). -/
def effPage (page : Int) : Int :=
  if page < 1 then 1 else page

/-- Effective page size: a size below 1 is replaced by the default 10, a size
above 100 by 100 (`content_repository.go:132-137`). -/
def effPageSize (pageSize : Int) : Int :=
  if pageSize < 1 then 10 else if pageSize > 100 then 100 else pageSize

/-- Go integer division (truncation toward zero), used for `totalPages`. -/
def goDiv (a b : Int) : Int := Int.tdiv a b

/-- Two's-complement wrap into Go's 64-bit `int` range
`[-9223372036854775808, 9223372036854775807]`: the result of a Go `int`
multiplication whose mathematical value overflows. -/
def wrap64 (n : Int) : Int :=
  (n + 9223372036854775808) % 18446744073709551616 - 9223372036854775808

/-- The offset computed by `offset := (params.Page - 1) * params.PageSize`
(`content_repository.go:139`): the product of the clamped page and page size
in wrapping 64-bit integer arithmetic. -/
def goOffset (p : ContentQueryParams) : Int :=
  wrap64 ((effPage p.page - 1) * effPageSize p.pageSize)

/-- Text of the paginated select query (`content_repository.go:143-148`). -/
def selectQueryText (p : ContentQueryParams) : String :=
  let b := baseQuery "" p
  "\n\t\tSELECT id, table_slug, values, created_at, updated_at\n\t\t" ++ b.1 ++
    "\n\t\tORDER BY " ++ orderByClause p ++ "\n\t\tLIMIT $" ++ toString b.2.2 ++
    " OFFSET $" ++ toString (b.2.2 + 1) ++ "\n\t"

/-- Bound arguments of the paginated select query
(`content_repository.go:150`): the base arguments followed by the clamped
page size and the offset (computed in wrapping 64-bit `int` arithmetic). -/
def selectQueryArgs (tableSlug : String) (p : ContentQueryParams) : List Arg :=
  (baseQuery tableSlug p).2.1 ++
    [Arg.int (effPageSize p.pageSize), Arg.int (goOffset p)]

/-! ### Executed semantics of the content queries -/

/-- Whether one row satisfies the `WHERE` clause built by `baseQuery`: same
table slug, `values::text ILIKE '%search%'` when the search term is
non-empty, and `values->>name = value` for every filter with a non-empty
value. -/
def rowMatches (slug : String) (p : ContentQueryParams) (r : ContentRow) :
    Bool :=
  r.tableSlug == slug &&
  (p.search == "" || ilike (renderJ (.obj r.values)) ("%" ++ p.search ++ "%")) &&
  p.filters.all (fun nv => nv.2 == "" || jsonGetText r.values nv.1 == some nv.2)

/-- The rows of the store satisfying the `WHERE` clause (the set the count
query counts and the select query pages over). -/
def matchedRows (db : List ContentRow) (slug : String)
    (p : ContentQueryParams) : List ContentRow :=
  db.filter (rowMatches slug p)

/-- Comparison used to execute the `ORDER BY` fragment.  Default and
timestamp sorts order by the stored clocks; a dynamic `sortBy` orders by the
extracted text `values->>'sortBy'` (lexicographically, SQL `NULL`s last for
ascending and first for descending, PostgreSQL's defaults). -/
def rowLE (p : ContentQueryParams) (a b : ContentRow) : Bool :=
  if p.sortBy = "" then b.createdAt ≤ a.createdAt
  else
    let desc := sortDirNorm p.sortDir = "DESC"
    if p.sortBy = "created_at" then
      if desc then b.createdAt ≤ a.createdAt else a.createdAt ≤ b.createdAt
    else if p.sortBy = "updated_at" then
      if desc then b.updatedAt ≤ a.updatedAt else a.updatedAt ≤ b.updatedAt
    else
      match jsonGetText a.values p.sortBy, jsonGetText b.values p.sortBy with
      | none, none => true
      | none, some _ => desc
      | some _, none => !desc
      | some x, some y => if desc then y ≤ x else x ≤ y

/-- Insertion of one element into a sorted list (helper of `sortedBy`). -/
def insertBy {α : Type} (le : α → α → Bool) (x : α) : List α → List α
  | [] => [x]
  | y :: ys => if le x y then x :: y :: ys else y :: insertBy le x ys

/-- Insertion sort by a boolean comparison — the model of SQL `ORDER BY`
evaluation (SQL leaves the order of ties unspecified; a deterministic sort is
chosen). -/
def sortedBy {α : Type} (le : α → α → Bool) : List α → List α
  | [] => []
  | x :: xs => insertBy le x (sortedBy le xs)

/-- Execution of the `ORDER BY` fragment. -/
def sortRows (p : ContentQueryParams) (rows : List ContentRow) :
    List ContentRow :=
  sortedBy (rowLE p) rows

/-- `GetContentsByTableSlug` without the relation-enrichment step
(`content_repository.go:72-191`): count the matching rows, clamp the
pagination parameters, and run the sorted page query
`LIMIT pageSize OFFSET offset` with `offset = (page-1)*pageSize` computed in
wrapping 64-bit `int` arithmetic, together with
`totalPages = (total + pageSize - 1) / pageSize`.  A product that wraps to a
negative offset makes PostgreSQL reject the `OFFSET`, so `DB.Query` errors
and the function returns an error. -/
def getContentsQuery (db : List ContentRow) (slug : String)
    (p : ContentQueryParams) : Except Unit ContentResponse :=
  let matched := matchedRows db slug p
  let total : Int := matched.length
  let page := effPage p.page
  let size := effPageSize p.pageSize
  let offset := goOffset p
  let totalPages := goDiv (total + size - 1) size
  if offset < 0 then .error ()
  else
    .ok { contents := ((sortRows p matched).drop offset.toNat).take size.toNat
          total := total
          page := page
          pageSize := size
          totalPages := totalPages }

/-! ### Relation resolver (`content_repository.go`, `preloadRelatedData` /
`getRelatedData` / `GetRelatedDataForField`) -/

/-- `GetSchemaBySlug` (schema repository): the first stored schema with the
given slug, `none` when no row matches (the Go function returns `nil` without
an error in that case). -/
def findSchema (schemas : List Schema) (slug : String) : Option Schema :=
  schemas.find? (·.tableSlug == slug)

/-- The relational fields of a schema (`content_repository.go:297-302`):
`dataType == "relation"` with a non-nil relation config. -/
def relationFields (fs : List Field) : List Field :=
  fs.filter (fun f => f.dataType == "relation" && f.relationConfig.isSome)

/-- `getRelatedData(config, fieldValue)` (`content_repository.go:329-350`):
select the first row of the target table whose `values->>relatedField`
equals the bound field value.  A `nil` field value binds SQL `NULL`, which
matches no row, so like an empty result it yields `.ok none` (the Go function
maps `sql.ErrNoRows` to `(nil, nil)`); a slice or map field value is rejected
by the driver, an error. -/
def getRelatedData (db : List ContentRow) (cfg : RelationConfig) (v : Jval) :
    Except Unit (Option ValueMap) :=
  match paramText v with
  | .error _ => .error ()
  | .ok none => .ok none
  | .ok (some t) =>
    .ok ((db.find? (fun r =>
      r.tableSlug == cfg.relatedTable &&
      jsonGetText r.values cfg.relatedField == some t)).map (·.values))

/-- The `Jval` stored under the derived key: the matched value map, or JSON
`null` when `getRelatedData` returned no data (Go stores the `nil`
interface). -/
def relatedJval : Option ValueMap → Jval
  | some m => .obj m
  | none => .null

/-- The inner loop of `preloadRelatedData` (`content_repository.go:309-323`)
on one record's value map: for each relational field present in the map, look
up the related record and store it under `"_" + name + "_related"`; a lookup
error is logged and skipped. -/
def enrichValues (db : List ContentRow) (rfs : List Field) (vs : ValueMap) :
    ValueMap :=
  rfs.foldl (fun vs f =>
    match lookupKey vs f.name with
    | none => vs
    | some v =>
      match f.relationConfig with
      | none => vs
      | some cfg =>
        match getRelatedData db cfg v with
        | .error _ => vs
        | .ok r => setKey vs ("_" ++ f.name ++ "_related") (relatedJval r)) vs

/-- `preloadRelatedData(contents, tableSlug)`
(`content_repository.go:288-326`): fetch the schema — when no schema exists
`GetSchemaBySlug` returns `nil` and the access to `schema.Fields` panics —
then enrich every record's value map at its relational fields. -/
def preloadRelatedData (schemas : List Schema) (db : List ContentRow)
    (slug : String) (contents : List ContentRow) :
    GoResult (List ContentRow) :=
  match findSchema schemas slug with
  | none => .panicked
  | some schema =>
    .ok (contents.map (fun c =>
      { c with values := enrichValues db (relationFields schema.fields) c.values }))

/-- `GetContentsByTableSlug` (`content_repository.go:72-192`): the executed
query followed by the relation-enrichment step; a query error is returned
before enrichment runs. -/
def getContentsByTableSlug (schemas : List Schema) (db : List ContentRow)
    (slug : String) (p : ContentQueryParams) :
    GoResult (Except Unit ContentResponse) :=
  match getContentsQuery db slug p with
  | .error e => .ok (.error e)
  | .ok resp =>
    match preloadRelatedData schemas db slug resp.contents with
    | .panicked => .panicked
    | .ok cs => .ok (.ok { resp with contents := cs })

/-- `GetRelatedDataForField(config)` (`content_repository.go:353-384`): the
value maps of all rows of the target table, newest first. -/
def getRelatedDataForField (db : List ContentRow) (cfg : RelationConfig) :
    List ValueMap :=
  (sortedBy (fun a b => b.createdAt ≤ a.createdAt)
    (db.filter (·.tableSlug == cfg.relatedTable))).map (·.values)

/-- The `GetRelatedData` handler (`content_handler.go:252-289`): after the
parameter checks it iterates `schema.Fields` with no `nil` check, so a slug
with no stored schema panics; a found relational field's config is handed to
`GetRelatedDataForField` (a `nil` config would also panic there). -/
def getRelatedDataHandler (schemas : List Schema) (db : List ContentRow)
    (slug fieldName : String) : GoResult (HandlerResult (List ValueMap)) :=
  if slug = "" ∨ fieldName = "" then
    .ok (.badRequest "table slug and field name are required")
  else
    match findSchema schemas slug with
    | none => .panicked
    | some schema =>
      match schema.fields.find? (fun f =>
          f.name == fieldName && f.dataType == "relation") with
      | none => .ok (.notFound "relation field not found")
      | some f =>
        match f.relationConfig with
        | none => .panicked
        | some cfg => .ok (.ok (getRelatedDataForField db cfg))

/-! ### Schema registry handlers (`backend/handlers/schema_handler.go`) -/

/-- `models.CreateSchemaRequest`. -/
structure CreateSchemaRequest where
  tableName : String
  tableSlug : String
  fields : List Field

/-- `models.UpdateSchemaRequest`. -/
structure UpdateSchemaRequest where
  tableName : String
  fields : List Field

/-- The field-list validation loop shared by `CreateSchema`
(`schema_handler.go:36-47`) and `UpdateSchema` (`schema_handler.go:115-126`):
walking the fields with the set of already-seen names, reject an empty name,
then a duplicate name. -/
def validateFieldList : List Field → List String → Option String
  | [], _ => none
  | f :: rest, seen =>
    if f.name = "" then some "field name cannot be empty"
    else if seen.contains f.name then some "duplicate field names are not allowed"
    else validateFieldList rest (f.name :: seen)

/-- The `CreateSchema` handler (`schema_handler.go:22-56`) over an abstract
registry state (list of stored schemas): empty field list, then field-list
validation, then the repository insert (unique slug). -/
def createSchemaHandler (st : List Schema) (req : CreateSchemaRequest)
    (newId : String) (now : Nat) : HandlerResult Schema × List Schema :=
  if req.fields.isEmpty then (.badRequest "at least one field is required", st)
  else
    match validateFieldList req.fields [] with
    | some msg => (.badRequest msg, st)
    | none =>
      if st.any (·.tableSlug == req.tableSlug) then
        (.serverError "failed to create schema: duplicate slug", st)
      else
        let sch : Schema :=
          { id := newId, tableSlug := req.tableSlug, tableName := req.tableName
            fields := req.fields, createdAt := now, updatedAt := now }
        (.ok sch, st ++ [sch])

/-- The `UpdateSchema` handler (`schema_handler.go:95-140`): the same
field-list validation, then the repository update of the row with the given
slug (`nil` row mapped to a 404). -/
def updateSchemaHandler (st : List Schema) (slug : String)
    (req : UpdateSchemaRequest) (now : Nat) : HandlerResult Schema × List Schema :=
  if slug = "" then (.badRequest "table slug is required", st)
  else if req.fields.isEmpty then (.badRequest "at least one field is required", st)
  else
    match validateFieldList req.fields [] with
    | some msg => (.badRequest msg, st)
    | none =>
      match findSchema st slug with
      | none => (.notFound "schema not found", st)
      | some old =>
        let sch := { old with tableName := req.tableName, fields := req.fields
                              updatedAt := now }
        (.ok sch, st.map (fun s => if s.tableSlug == slug then sch else s))

/-! ### Content update (`content_repository.go` `UpdateContent`,
`content_handler.go` `UpdateContent`) -/

/-- `GetContentByID` (`content_repository.go:47-69`): the row with the given
id, `none` when no row matches. -/
def getContentByID (db : List ContentRow) (id : String) : Option ContentRow :=
  db.find? (·.id == id)

/-- The row transformation of
`UPDATE contents SET values = $1, updated_at = CURRENT_TIMESTAMP WHERE id = $2`
(`content_repository.go:216-220`): every row with the given id gets the new
values and the current clock; every other row is untouched. -/
def updateContentDB (db : List ContentRow) (id : String) (vals : ValueMap)
    (now : Nat) : List ContentRow :=
  db.map (fun r =>
    if r.id == id then { r with values := vals, updatedAt := now } else r)

/-- `UpdateContent` at the repository (`content_repository.go:210-238`): run
the update and return the updated row (`RETURNING …`; `none` when no row had
the id, Go's `sql.ErrNoRows → (nil, nil)`). -/
def updateContentRepo (db : List ContentRow) (id : String) (vals : ValueMap)
    (now : Nat) : Option ContentRow × List ContentRow :=
  let db' := updateContentDB db id vals now
  (getContentByID db' id, db')

/-- The `UpdateContent` handler (`content_handler.go:160-204`): load the
existing record (404 when absent), load its schema — a missing schema is not
checked for `nil` and the later `schema.Fields` access panics — validate the
new value map, then run the repository update. -/
def updateContentHandler (schemas : List Schema) (db : List ContentRow)
    (id : String) (vals : ValueMap) (now : Nat) :
    GoResult (HandlerResult (Option ContentRow) × List ContentRow) :=
  if id = "" then .ok (.badRequest "content id is required", db)
  else
    match getContentByID db id with
    | none => .ok (.notFound "content not found", db)
    | some existing =>
      match findSchema schemas existing.tableSlug with
      | none => .panicked
      | some schema =>
        match validateContentAgainstSchema vals schema.fields with
        | .panicked => .panicked
        | .errMissing name =>
          .ok (.badRequest ("required field '" ++ name ++ "' is missing"), db)
        | .errUnknown key =>
          .ok (.badRequest ("field '" ++ key ++ "' is not defined in schema"), db)
        | .ok =>
          let r := updateContentRepo db id vals now
          .ok (.ok r.1, r.2)

/-! ### Schema deletion and the `schema`/`schemas` table names
(`database/db.go` `createTables`, schema repository `DeleteSchema`) -/

/-- The state of the PostgreSQL database at the granularity the deletion
claim needs: which tables exist, the rows of the table `schema` (the one
`createTables` creates, carrying the `ON DELETE CASCADE` reference from
`contents`), the rows of a table `schemas` (the one every schema-repository
statement actually targets), and the `contents` rows. -/
structure PgState where
  tables : List String
  schemaRows : List Schema
  schemasRows : List Schema
  contentRows : List ContentRow

/-- `createTables` (`database/db.go:46-94`): creates the tables `schema` and
`contents`, with `contents.table_slug REFERENCES schema(table_slug) ON
DELETE CASCADE`.  No table named `schemas` is created. -/
def createTablesDDL : PgState :=
  { tables := ["schema", "contents"], schemaRows := [], schemasRows := []
    contentRows := [] }

/-- Execution of `DELETE FROM schemas WHERE table_slug = $1`: an error when
the table `schemas` does not exist; otherwise its matching rows are removed
and counted.  The only cascade declared by the DDL is attached to the table
`schema`, so a deletion from `schemas` never touches `contents`. -/
def sqlDeleteFromSchemas (st : PgState) (slug : String) :
    Except String (PgState × Nat) :=
  if st.tables.contains "schemas" then
    .ok ({ st with
            schemasRows := st.schemasRows.filter (fun s => !(s.tableSlug == slug)) },
         (st.schemasRows.filter (·.tableSlug == slug)).length)
  else .error "relation \"schemas\" does not exist"

/-- The schema repository's `DeleteSchema` (`part_001:236-253`): run the
delete, wrap a store error, and report `schema not found` when zero rows were
affected. -/
def deleteSchemaRepo (st : PgState) (slug : String) : Except String PgState :=
  match sqlDeleteFromSchemas st slug with
  | .error e => .error ("failed to delete schema: " ++ e)
  | .ok (st', n) => if n = 0 then .error "schema not found" else .ok st'

/-- `GetContentByID` over the named-table state (reads `contents`). -/
def getContentByIDPg (st : PgState) (id : String) : Option ContentRow :=
  st.contentRows.find? (·.id == id)

/-! ### Auxiliary predicates used by the theorem statements -/

/-- Whether `needle` occurs at the start of `hay`. -/
def leadsWithL : List Char → List Char → Bool
  | [], _ => true
  | _ :: _, [] => false
  | a :: as, b :: bs => a == b && leadsWithL as bs

/-- Whether `needle` occurs somewhere inside `hay`. -/
def occursInL (needle : List Char) : List Char → Bool
  | [] => needle.isEmpty
  | t :: ts => leadsWithL needle (t :: ts) || occursInL needle ts

/-- Substring test on strings. -/
def occursIn (needle hay : String) : Bool :=
  occursInL needle.data hay.data

/-- Whether a string is free of the `LIKE` wildcard and escape characters
`%`, `_` and `\`. -/
def noWildStr (s : String) : Bool :=
  s.data.all (fun c => !(c == '%' || c == '_' || c == '\\'))

/-- Case-insensitive (ASCII) substring containment: the spec's reading of
"the serialized value map contains `search` as a case-insensitive
substring". -/
def containsCI (doc s : String) : Prop :=
  ∃ a b, doc.data.map lowerC = a ++ s.data.map lowerC ++ b

/-! ### Concrete instances used by counterexamples and witnesses -/

/-- A plain text field definition. -/
def mkField (n : String) (req : Bool) : Field :=
  { name := n, label := n, dataType := "text", dataValidation := ""
    required := req, options := [], relationConfig := none }

/-- Query parameters whose `sortBy` carries a marker string (C1). -/
def c1Params : ContentQueryParams :=
  { search := "", filters := [], sortBy := "zqxinj", sortDir := ""
    page := 1, pageSize := 10 }

/-- First query of the C1 independence witness. -/
def c1ParamsA : ContentQueryParams :=
  { search := "alice", filters := [("role", "admin")], sortBy := "name"
    sortDir := "desc", page := 3, pageSize := 20 }

/-- Second query of the C1 independence witness: same shape as `c1ParamsA`,
entirely different user strings. -/
def c1ParamsB : ContentQueryParams :=
  { search := "bob", filters := [("city", "Oslo")], sortBy := "name"
    sortDir := "DESC", page := 1, pageSize := 5 }

/-- Relation config of the C2 instances: field values reference `values.id`
of table `b`. -/
def c2Cfg : RelationConfig :=
  { relationType := "many-to-one", relatedTable := "b", relatedField := "id"
    displayField := "title", allowMultiple := false }

/-- The relation field of the C2 instances. -/
def c2RelField : Field :=
  { name := "bref", label := "B", dataType := "relation", dataValidation := ""
    required := false, options := [], relationConfig := some c2Cfg }

/-- Schema of table `a` with one text field and one relation field (C2). -/
def c2SchemaA : Schema :=
  { id := "sa", tableSlug := "a", tableName := "A"
    fields := [mkField "title" false, c2RelField], createdAt := 0, updatedAt := 0 }

/-- A record of table `a` whose `bref` value `"7"` may or may not have a
match in table `b` (C2). -/
def c2RowA : ContentRow :=
  { id := "a1", tableSlug := "a", values := [("bref", Jval.str "7")]
    createdAt := 5, updatedAt := 5 }

/-- A record of table `b` matching `values->>id = '7'` (C2 witness). -/
def c2RowB : ContentRow :=
  { id := "b1", tableSlug := "b"
    values := [("id", Jval.str "7"), ("title", Jval.str "Seven")]
    createdAt := 2, updatedAt := 2 }

/-- Plain listing parameters (defaults of the handler). -/
def defParams : ContentQueryParams :=
  { search := "", filters := [], sortBy := "", sortDir := ""
    page := 1, pageSize := 10 }

/-- Query parameters with `pageSize = 0` (C3). -/
def c3Params : ContentQueryParams :=
  { search := "", filters := [], sortBy := "", sortDir := ""
    page := 1, pageSize := 0 }

/-- A store of 25 records of table `t`, stored newest first (C3). -/
def db25 : List ContentRow :=
  (List.range 25).map (fun i =>
    { id := toString i, tableSlug := "t", values := [("n", Jval.num (Int.ofNat i))]
      createdAt := 1000 - i, updatedAt := 1000 - i })

/-- Page 2 of size 10 (C3). -/
def c3Page2 : ContentQueryParams :=
  { search := "", filters := [], sortBy := "", sortDir := ""
    page := 2, pageSize := 10 }

/-- Query parameters whose offset product `(2^57) * 64 = 2^63` overflows a
64-bit `int` and wraps to `-2^63` (C3). -/
def c3Overflow : ContentQueryParams :=
  { search := "", filters := [], sortBy := "", sortDir := ""
    page := 144115188075855873, pageSize := 64 }

/-- Field list with no required field (C4: the panicking input must get past
the required-fields loop). -/
def c4Fields : List Field := [mkField "name" false]

/-- Schema row of the C5 instance. -/
def c5Schema : Schema :=
  { id := "s1", tableSlug := "people", tableName := "People"
    fields := [mkField "name" true], createdAt := 0, updatedAt := 0 }

/-- Content row of the C5 instance. -/
def c5Row : ContentRow :=
  { id := "r1", tableSlug := "people", values := [("name", Jval.str "Ann")]
    createdAt := 1, updatedAt := 1 }

/-- Database state in which a table named `schemas` does exist (created out
of band — the shipped DDL never creates it) and holds the `people` schema,
while `contents` holds one `people` record (C5). -/
def c5State : PgState :=
  { tables := ["schema", "contents", "schemas"], schemaRows := []
    schemasRows := [c5Schema], contentRows := [c5Row] }

/-- Schema of the C6 witness. -/
def c6Schema : Schema :=
  { id := "s", tableSlug := "t", tableName := "T"
    fields := [mkField "name" true], createdAt := 0, updatedAt := 0 }

/-- Existing record of the C6 witness. -/
def c6Row : ContentRow :=
  { id := "r1", tableSlug := "t", values := [("name", Jval.str "old")]
    createdAt := 3, updatedAt := 3 }

/-- Search parameters for `search="john"` (C7 witness). -/
def c7Params : ContentQueryParams :=
  { search := "john", filters := [], sortBy := "", sortDir := ""
    page := 1, pageSize := 10 }

/-- A record whose serialized values contain "John" (C7). -/
def c7RowJohn : ContentRow :=
  { id := "1", tableSlug := "t", values := [("name", Jval.str "John Smith")]
    createdAt := 1, updatedAt := 1 }

/-- A record whose serialized values do not contain "john" (C7). -/
def c7RowMary : ContentRow :=
  { id := "2", tableSlug := "t", values := [("name", Jval.str "Mary")]
    createdAt := 2, updatedAt := 2 }

/-- Search parameters whose search term contains a `%` wildcard (C7
counterexample). -/
def c7WildParams : ContentQueryParams :=
  { search := "a%b", filters := [], sortBy := "", sortDir := ""
    page := 1, pageSize := 10 }

/-- A record whose serialized values contain "axb" but not the literal
"a%b" (C7 counterexample). -/
def c7RowAxb : ContentRow :=
  { id := "3", tableSlug := "t", values := [("n", Jval.str "axb")]
    createdAt := 1, updatedAt := 1 }

/-- A schema-creation request with a duplicated field name (C8 witness). -/
def c8BadReq : CreateSchemaRequest :=
  { tableName := "T", tableSlug := "t"
    fields := [mkField "x" false, mkField "x" false] }

/-- A schema-update request with a duplicated field name (C8 witness). -/
def c8BadUReq : UpdateSchemaRequest :=
  { tableName := "T", fields := [mkField "x" false, mkField "x" false] }

/-! ## Theorems -/

/-! ### Helper lemmas about the `LIKE` matcher -/

theorem likeAux_pct_nil (fuel : Nat) (ps' : List Char) :
    likeAux (fuel + 1) ('%' :: ps') [] = (likeAux fuel ps' [] || false) := rfl

theorem likeAux_pct_cons (fuel : Nat) (ps' ts' : List Char) (t : Char) :
    likeAux (fuel + 1) ('%' :: ps') (t :: ts') =
      (likeAux fuel ps' (t :: ts') || likeAux fuel ('%' :: ps') ts') := rfl

theorem likeAux_esc_nilp (fuel : Nat) (ts : List Char) :
    likeAux (fuel + 1) ['\\'] ts = false := by
  cases ts <;> rfl

theorem likeAux_esc_nil (fuel : Nat) (c : Char) (ps'' : List Char) :
    likeAux (fuel + 1) ('\\' :: c :: ps'') [] = false := rfl

theorem likeAux_esc_cons (fuel : Nat) (c t : Char) (ps'' ts' : List Char) :
    likeAux (fuel + 1) ('\\' :: c :: ps'') (t :: ts') =
      ((t == c) && likeAux fuel ps'' ts') := rfl

theorem likeAux_usc_nil (fuel : Nat) (ps' : List Char) :
    likeAux (fuel + 1) ('_' :: ps') [] = false := rfl

theorem likeAux_usc_cons (fuel : Nat) (t : Char) (ps' ts' : List Char) :
    likeAux (fuel + 1) ('_' :: ps') (t :: ts') = likeAux fuel ps' ts' := rfl

theorem likeAux_lit_nil (fuel : Nat) (p : Char) (ps' : List Char)
    (hp : p ≠ '%') (hb : p ≠ '\\') (hu : p ≠ '_') :
    likeAux (fuel + 1) (p :: ps') [] = false := by
  show (if p = '%' then _ else _) = _
  rw [if_neg hp, if_neg hb, if_neg hu]

theorem likeAux_lit_cons (fuel : Nat) (p t : Char) (ps' ts' : List Char)
    (hp : p ≠ '%') (hb : p ≠ '\\') (hu : p ≠ '_') :
    likeAux (fuel + 1) (p :: ps') (t :: ts') =
      ((t == p) && likeAux fuel ps' ts') := by
  show (if p = '%' then _ else _) = _
  rw [if_neg hp, if_neg hb, if_neg hu]

theorem likeAux_eq (f : Nat) : ∀ (g : Nat) (ps ts : List Char),
    ps.length + ts.length < f → ps.length + ts.length < g →
    likeAux f ps ts = likeAux g ps ts := by
  induction f with
  | zero => intro g ps ts hf; omega
  | succ f ih =>
    intro g ps ts hf hg
    match g, hg with
    | g + 1, hg =>
    match ps with
    | [] => rfl
    | p :: ps' =>
      simp only [List.length_cons] at hf hg
      by_cases hp : p = '%'
      · subst hp
        cases ts with
        | nil =>
          rw [likeAux_pct_nil, likeAux_pct_nil,
            ih g ps' [] (by simp only [List.length_nil]; omega)
              (by simp only [List.length_nil]; omega)]
        | cons t ts' =>
          simp only [List.length_cons] at hf hg
          rw [likeAux_pct_cons, likeAux_pct_cons,
            ih g ps' (t :: ts') (by simp only [List.length_cons]; omega)
              (by simp only [List.length_cons]; omega),
            ih g ('%' :: ps') ts' (by simp only [List.length_cons]; omega)
              (by simp only [List.length_cons]; omega)]
      · by_cases hb : p = '\\'
        · subst hb
          match ps', ts with
          | [], ts => rw [likeAux_esc_nilp, likeAux_esc_nilp]
          | c :: ps'', [] => rfl
          | c :: ps'', t :: ts' =>
            simp only [List.length_cons] at hf hg
            rw [likeAux_esc_cons, likeAux_esc_cons, ih g ps'' ts' (by omega) (by omega)]
        · by_cases hu : p = '_'
          · subst hu
            cases ts with
            | nil => rfl
            | cons t ts' =>
              simp only [List.length_cons] at hf hg
              rw [likeAux_usc_cons, likeAux_usc_cons, ih g ps' ts' (by omega) (by omega)]
          · cases ts with
            | nil => rw [likeAux_lit_nil f p ps' hp hb hu, likeAux_lit_nil g p ps' hp hb hu]
            | cons t ts' =>
              simp only [List.length_cons] at hf hg
              rw [likeAux_lit_cons f p t ps' ts' hp hb hu,
                likeAux_lit_cons g p t ps' ts' hp hb hu,
                ih g ps' ts' (by omega) (by omega)]

/-- Canonical-fuel corollary. -/
theorem likeAux_eq_likeMatch (f : Nat) (ps ts : List Char)
    (h : ps.length + ts.length < f) : likeAux f ps ts = likeMatch ps ts :=
  likeAux_eq f (ps.length + ts.length + 1) ps ts h (by omega)

theorem likeMatch_nil (ts : List Char) : likeMatch [] ts = ts.isEmpty := rfl

theorem likeMatch_pct (ps ts : List Char) :
    likeMatch ('%' :: ps) ts =
      (likeMatch ps ts ||
        match ts with
        | [] => false
        | _ :: ts' => likeMatch ('%' :: ps) ts') := by
  cases ts with
  | nil => rfl
  | cons t ts' =>
    rw [show likeMatch ('%' :: ps) (t :: ts') =
      likeAux (ps.length + ts'.length + 2 + 1) ('%' :: ps) (t :: ts') from
        likeAux_eq _ _ _ _ (by simp only [List.length_cons, List.length_nil]; omega) (by simp only [List.length_cons, List.length_nil]; omega),
      likeAux_pct_cons,
      likeAux_eq_likeMatch _ _ _ (by simp only [List.length_cons, List.length_nil]; omega),
      likeAux_eq_likeMatch _ _ _ (by simp only [List.length_cons, List.length_nil]; omega)]

theorem likeMatch_esc (ps ts : List Char) :
    likeMatch ('\\' :: ps) ts =
      (match ps with
       | [] => false
       | c :: ps' =>
         match ts with
         | [] => false
         | t :: ts' => (t == c) && likeMatch ps' ts') := by
  match ps, ts with
  | [], ts =>
    rw [show likeMatch ['\\'] ts = likeAux (ts.length + 1 + 1) ['\\'] ts from
        likeAux_eq _ _ _ _ (by simp only [List.length_cons, List.length_nil]; omega) (by simp only [List.length_cons, List.length_nil]; omega),
      likeAux_esc_nilp]
  | c :: ps', [] => rfl
  | c :: ps', t :: ts' =>
    rw [show likeMatch ('\\' :: c :: ps') (t :: ts') =
      likeAux (ps'.length + ts'.length + 3 + 1) ('\\' :: c :: ps') (t :: ts') from
        likeAux_eq _ _ _ _ (by simp only [List.length_cons, List.length_nil]; omega) (by simp only [List.length_cons, List.length_nil]; omega),
      likeAux_esc_cons,
      likeAux_eq_likeMatch _ _ _ (by omega)]

theorem likeMatch_lit (p : Char) (ps ts : List Char) (hp : p ≠ '%')
    (hb : p ≠ '\\') (hu : p ≠ '_') :
    likeMatch (p :: ps) ts =
      (match ts with
       | [] => false
       | t :: ts' => (t == p) && likeMatch ps ts') := by
  cases ts with
  | nil => exact likeAux_lit_nil _ p ps hp hb hu
  | cons t ts' =>
    rw [show likeMatch (p :: ps) (t :: ts') =
      likeAux (ps.length + ts'.length + 2 + 1) (p :: ps) (t :: ts') from
        likeAux_eq _ _ _ _ (by simp only [List.length_cons, List.length_nil]; omega) (by simp only [List.length_cons, List.length_nil]; omega),
      likeAux_lit_cons _ _ _ _ _ hp hb hu,
      likeAux_eq_likeMatch _ _ _ (by omega)]

theorem likeMatch_usc (ps ts : List Char) :
    likeMatch ('_' :: ps) ts =
      (match ts with
       | [] => false
       | _ :: ts' => likeMatch ps ts') := by
  cases ts with
  | nil => rfl
  | cons t ts' =>
    rw [show likeMatch ('_' :: ps) (t :: ts') =
      likeAux (ps.length + ts'.length + 2 + 1) ('_' :: ps) (t :: ts') from
        likeAux_eq _ _ _ _ (by simp only [List.length_cons, List.length_nil]; omega) (by simp only [List.length_cons, List.length_nil]; omega),
      likeAux_usc_cons]
    exact likeAux_eq_likeMatch _ _ _ (by omega)

theorem lowerC_noWild (c : Char) (h : c ≠ '%' ∧ c ≠ '\\' ∧ c ≠ '_') :
    lowerC c ≠ '%' ∧ lowerC c ≠ '\\' ∧ lowerC c ≠ '_' := by
  unfold lowerC
  split <;> first | decide | exact h

theorem likeMatch_full (ts : List Char) : likeMatch ['%'] ts = true := by
  induction ts with
  | nil => rfl
  | cons t ts ih =>
    rw [likeMatch_pct]
    simp only [likeMatch_nil, ih, Bool.or_true]

theorem likeMatch_pct_iff (ps ts : List Char) :
    likeMatch ('%' :: ps) ts = true ↔
      ∃ a b, ts = a ++ b ∧ likeMatch ps b = true := by
  induction ts with
  | nil =>
    rw [likeMatch_pct]
    constructor
    · intro h
      simp only [Bool.or_false] at h
      exact ⟨[], [], rfl, h⟩
    · rintro ⟨a, b, hab, hb⟩
      rcases List.append_eq_nil.mp hab.symm with ⟨ha, hb'⟩
      subst ha; subst hb'
      simp only [Bool.or_false]
      exact hb
  | cons t ts ih =>
    rw [likeMatch_pct]
    constructor
    · intro h
      simp only [Bool.or_eq_true] at h
      rcases h with h1 | h2
      · exact ⟨[], t :: ts, rfl, h1⟩
      · rcases ih.mp h2 with ⟨a, b, hab, hb⟩
        exact ⟨t :: a, b, by rw [hab]; rfl, hb⟩
    · rintro ⟨a, b, hab, hb⟩
      cases a with
      | nil =>
        simp only [List.nil_append] at hab
        subst hab
        simp only [Bool.or_eq_true]
        exact Or.inl hb
      | cons a0 a' =>
        simp only [List.cons_append, List.cons.injEq] at hab
        rcases hab with ⟨ht, hts⟩
        simp only [Bool.or_eq_true]
        exact Or.inr (ih.mpr ⟨a', b, hts, hb⟩)

theorem likeMatch_lits_iff (ps : List Char)
    (hw : ∀ c ∈ ps, c ≠ '%' ∧ c ≠ '\\' ∧ c ≠ '_') : ∀ (ts : List Char),
    (likeMatch (ps ++ ['%']) ts = true ↔ ∃ b, ts = ps ++ b) := by
  induction ps with
  | nil =>
    intro ts
    simp only [List.nil_append, likeMatch_full, true_iff]
    exact ⟨ts, rfl⟩
  | cons c ps ih =>
    intro ts
    have hc := hw c (List.mem_cons_self c ps)
    have hw' : ∀ x ∈ ps, x ≠ '%' ∧ x ≠ '\\' ∧ x ≠ '_' :=
      fun x hx => hw x (List.mem_cons_of_mem c hx)
    rw [List.cons_append, likeMatch_lit c (ps ++ ['%']) ts hc.1 hc.2.1 hc.2.2]
    cases ts with
    | nil =>
      constructor
      · intro h; exact absurd h (by simp)
      · rintro ⟨b, hb⟩; exact absurd hb (by simp)
    | cons t ts' =>
      constructor
      · intro h
        simp only [Bool.and_eq_true, beq_iff_eq] at h
        rcases h with ⟨ht, hm⟩
        rcases (ih hw' ts').mp hm with ⟨b, hb⟩
        exact ⟨b, by rw [List.cons_append, ht, hb]⟩
      · rintro ⟨b, hb⟩
        simp only [List.cons_append, List.cons.injEq] at hb
        rcases hb with ⟨ht, hts⟩
        simp only [Bool.and_eq_true, beq_iff_eq]
        exact ⟨ht, (ih hw' ts').mpr ⟨b, hts⟩⟩

theorem likeMatch_contains_iff (s ts : List Char)
    (hw : ∀ c ∈ s, c ≠ '%' ∧ c ≠ '\\' ∧ c ≠ '_') :
    likeMatch ('%' :: (s ++ ['%'])) ts = true ↔ ∃ a b, ts = a ++ s ++ b := by
  rw [likeMatch_pct_iff]
  constructor
  · rintro ⟨a, b', hab, h⟩
    rcases (likeMatch_lits_iff s hw b').mp h with ⟨b, hb⟩
    exact ⟨a, b, by rw [hab, hb, List.append_assoc]⟩
  · rintro ⟨a, b, h⟩
    exact ⟨a, s ++ b, by rw [h, List.append_assoc],
      (likeMatch_lits_iff s hw (s ++ b)).mpr ⟨b, rfl⟩⟩

theorem ilike_contains_iff (doc s : String) (hs : noWildStr s = true) :
    (ilike doc ("%" ++ s ++ "%") = true ↔ containsCI doc s) := by
  have hdata : ("%" ++ s ++ "%").data.map lowerC =
      '%' :: (s.data.map lowerC ++ ['%']) := by
    rw [String.data_append, String.data_append]
    simp only [List.map_append]
    rfl
  rw [ilike, hdata]
  have hw : ∀ c ∈ s.data.map lowerC, c ≠ '%' ∧ c ≠ '\\' ∧ c ≠ '_' := by
    intro c hc
    rcases List.mem_map.mp hc with ⟨c0, hc0, rfl⟩
    have h0 := List.all_eq_true.mp hs c0 hc0
    simp only [Bool.not_eq_true', Bool.or_eq_false_iff, beq_eq_false_iff_ne] at h0
    exact lowerC_noWild c0 ⟨h0.1.1, h0.2, h0.1.2⟩
  exact likeMatch_contains_iff (s.data.map lowerC) (doc.data.map lowerC) hw


/-- C9: the content validator is not total — on a value map whose only key is
the empty string (and an empty field list, so the key matches no field), the
reserved-prefix check `key[:1]` slices an empty string and the Go code
panics instead of returning success or a validation error. -/
theorem validator_empty_key_panics :
    validateContentAgainstSchema [("", Jval.str "x")] [] = .panicked := rfl

/-- C10: requesting related data for a table slug with no stored schema does
not produce a not-found error: `GetSchemaBySlug` returns `nil` without error
and the handler iterates `schema.Fields` without a `nil` check, a nil-pointer
panic. -/
theorem related_data_handler_missing_schema_panics :
    getRelatedDataHandler [] [] "ghost" "f" = .panicked := rfl

/-- C5: the deletion cascade is broken by a table-name mismatch.  On the
database produced by `createTables` (which creates `schema` and `contents`,
with the cascade attached to `schema`), the repository's
`DELETE FROM schemas` fails with a store error — not the not-found error —
because no table `schemas` exists; and on a state where a `schemas` table
does exist and holds the schema, the deletion succeeds yet the record of the
deleted table is still reachable by id, because the `ON DELETE CASCADE`
constraint references the table `schema`, not `schemas`. -/
theorem delete_schema_cascade_broken :
    (deleteSchemaRepo createTablesDDL "people" =
      .error "failed to delete schema: relation \"schemas\" does not exist") ∧
    deleteSchemaRepo c5State "people" = .ok { c5State with schemasRows := [] } ∧
    getContentByIDPg { c5State with schemasRows := [] } "r1" = some c5Row :=
  ⟨rfl, rfl, rfl⟩

/-- C1 counterexample: the user-supplied `sortBy` string is interpolated into
the text of the select query (inside `ORDER BY values->>'…'`) and is not one
of the bound arguments, refuting "the query text contains no user-supplied
string". -/
theorem sortBy_interpolated_into_query :
    occursIn "zqxinj" (selectQueryText c1Params) = true ∧
    Arg.str "zqxinj" ∉ selectQueryArgs "people" c1Params :=
  ⟨rfl, by decide⟩

/-- C3 counterexample: a requested `pageSize` of `0` is replaced by the
default `10`, not clamped into the interval `[1,100]` (whose clamp of `0`
is `1`). -/
theorem pageSize_zero_not_clamped_to_one :
    ∃ resp, getContentsQuery [] "t" c3Params = .ok resp ∧
      resp.pageSize = 10 ∧ resp.pageSize ≠ max 1 (min c3Params.pageSize 100) :=
  ⟨_, rfl, rfl, by decide⟩

/-- C2 counterexample: listing table `a` when the relation value `"7"` has no
match in table `b` still attaches the reserved derived key — bound to JSON
`null` — because `getRelatedData` maps `sql.ErrNoRows` to `(nil, nil)` and
the caller stores the `nil` result; the claim says the key is absent. -/
theorem no_match_attaches_null_key :
    ∃ resp, getContentsByTableSlug [c2SchemaA] [c2RowA] "a" defParams = .ok (.ok resp) ∧
      ∃ c, resp.contents = [c] ∧ lookupKey c.values "_bref_related" = some Jval.null :=
  ⟨_, rfl, _, rfl, rfl⟩

/-- C7 (amended): for every non-empty search string free of the SQL `LIKE`
wildcard and escape characters `%`, `_`, `\`, a record is in the matched set
of the listing (the set the count query counts and the select query pages
over) iff it is stored, belongs to the requested table, satisfies every
active filter, and its serialized value map contains the search string as a
case-insensitive substring.  (A search containing `%` or `_` is instead
interpreted as a wildcard pattern — see the counterexample.) -/
theorem search_ci_substring (db : List ContentRow) (slug : String)
    (p : ContentQueryParams) (r : ContentRow)
    (hs : p.search ≠ "") (hw : noWildStr p.search = true) :
    (r ∈ matchedRows db slug p ↔
      r ∈ db ∧ r.tableSlug = slug ∧
      (∀ nv ∈ p.filters, nv.2 ≠ "" → jsonGetText r.values nv.1 = some nv.2) ∧
      containsCI (renderJ (.obj r.values)) p.search) := by
  simp only [matchedRows, List.mem_filter, rowMatches, Bool.and_eq_true,
    beq_iff_eq, Bool.or_eq_true, List.all_eq_true]
  constructor
  · rintro ⟨hdb, ⟨⟨hslug, hsearch⟩, hfilters⟩⟩
    refine ⟨hdb, hslug, ?_, ?_⟩
    · intro nv hnv hne
      rcases hfilters nv hnv with h | h
      · exact absurd h hne
      · exact h
    · rcases hsearch with h | h
      · exact absurd h hs
      · exact (ilike_contains_iff _ _ hw).mp h
  · rintro ⟨hdb, hslug, hf, hc⟩
    refine ⟨hdb, ⟨⟨hslug, Or.inr ((ilike_contains_iff _ _ hw).mpr hc)⟩, ?_⟩⟩
    intro nv hnv
    by_cases he : nv.2 = ""
    · exact Or.inl he
    · exact Or.inr (hf nv hnv he)

/-- C7 witness: with `search="john"`, the record serializing to contain
"John Smith" is matched — and by the theorem its serialization contains
"john" case-insensitively — while the record serializing to "Mary" is not
matched. -/
theorem search_ci_substring_witness :
    containsCI (renderJ (.obj c7RowJohn.values)) "john" ∧
    c7RowMary ∉ matchedRows [c7RowJohn, c7RowMary] "t" c7Params := by
  constructor
  · have hmem : c7RowJohn ∈ matchedRows [c7RowJohn, c7RowMary] "t" c7Params := by
      rw [show matchedRows [c7RowJohn, c7RowMary] "t" c7Params = [c7RowJohn] from rfl]
      exact List.mem_singleton_self _
    exact ((search_ci_substring [c7RowJohn, c7RowMary] "t" c7Params c7RowJohn
      (by decide) (by decide)).mp hmem).2.2.2
  · intro h
    rw [show matchedRows [c7RowJohn, c7RowMary] "t" c7Params = [c7RowJohn] from rfl] at h
    have hid := congrArg ContentRow.id (List.mem_singleton.mp h)
    exact absurd hid (by decide)

/-- C7 counterexample: the search term is embedded in the `ILIKE` pattern, so
`%` acts as a wildcard — searching `"a%b"` matches a record whose serialized
values contain `"axb"` but not the literal substring `"a%b"`, refuting the
claimed substring semantics for arbitrary search strings. -/
theorem wildcard_search_not_substring :
    c7RowAxb ∈ matchedRows [c7RowAxb] "t" c7WildParams ∧
    ¬ containsCI (renderJ (.obj c7RowAxb.values)) "a%b" := by
  constructor
  · rw [show matchedRows [c7RowAxb] "t" c7WildParams = [c7RowAxb] from rfl]
    exact List.mem_singleton_self _
  · rintro ⟨a, b, hab⟩
    have hm : '%' ∈ (renderJ (.obj c7RowAxb.values)).data.map lowerC := by
      rw [hab]
      simp only [List.mem_append]
      left; right
      decide
    exact absurd hm (by decide)

/-- The text and the next parameter index produced by `filterClauses` depend
only on which filter values are empty, not on the filter strings themselves. -/
theorem filterClauses_shape (fs fs' : List (String × String))
    (h : fs.map (fun nv => nv.2 == "") = fs'.map (fun nv => nv.2 == "")) :
    ∀ i, (filterClauses fs i).1 = (filterClauses fs' i).1 ∧
      (filterClauses fs i).2.2 = (filterClauses fs' i).2.2 := by
  induction fs generalizing fs' with
  | nil =>
    rw [List.map_nil] at h
    rw [List.map_eq_nil_iff.mp h.symm]
    exact fun i => ⟨rfl, rfl⟩
  | cons nv fs ih =>
    cases fs' with
    | nil => simp at h
    | cons nv' fs'' =>
      simp only [List.map_cons, List.cons.injEq] at h
      obtain ⟨h1, h2⟩ := h
      intro i
      rw [filterClauses, filterClauses]
      by_cases hv : nv.2 = ""
      · have hv' : nv'.2 = "" := by
          have hb : (nv'.2 == "") = true := by rw [← h1]; exact beq_iff_eq.mpr hv
          exact beq_iff_eq.mp hb
        rw [if_pos hv, if_pos hv']
        exact ih fs'' h2 i
      · have hv' : nv'.2 ≠ "" := by
          intro hh
          exact hv (beq_iff_eq.mp (by rw [h1]; exact beq_iff_eq.mpr hh))
        rw [if_neg hv, if_neg hv']
        constructor
        · show (" AND values->>$" ++ toString i ++ " = $" ++ toString (i + 1) ++
            (filterClauses fs (i + 2)).1) = _
          rw [(ih fs'' h2 (i + 2)).1]
        · show (filterClauses fs (i + 2)).2.2 = _
          exact (ih fs'' h2 (i + 2)).2

/-- C1 (amended): the query text is independent of the search term, the
filter field names and the filter values — they travel only as bound
parameters — as long as the two parameter sets agree on which clauses are
generated (search emptiness, per-filter emptiness), on `sortBy`, and on the
normalised sort direction.  `sortBy` itself is excluded: it is interpolated
into the text (see the counterexample). -/
theorem query_text_independent_of_bound_values (p p' : ContentQueryParams)
    (hs : p.search = "" ↔ p'.search = "")
    (hf : p.filters.map (fun nv => nv.2 == "") =
      p'.filters.map (fun nv => nv.2 == ""))
    (hb : p.sortBy = p'.sortBy)
    (hd : sortDirNorm p.sortDir = sortDirNorm p'.sortDir) :
    selectQueryText p = selectQueryText p' ∧
    countQueryText p = countQueryText p' := by
  have hsc : (searchClause p.search 2).1 = (searchClause p'.search 2).1 ∧
      (searchClause p.search 2).2.2 = (searchClause p'.search 2).2.2 := by
    by_cases h : p.search = ""
    · have h' : p'.search = "" := hs.mp h
      rw [searchClause, searchClause, if_pos h, if_pos h']
      exact ⟨rfl, rfl⟩
    · have h' : p'.search ≠ "" := fun hh => h (hs.mpr hh)
      rw [searchClause, searchClause, if_neg h, if_neg h']
      exact ⟨rfl, rfl⟩
  have hob : orderByClause p = orderByClause p' := by
    rw [orderByClause, orderByClause, hb, hd]
  constructor
  · simp only [selectQueryText, baseQuery]
    rw [hsc.1, hsc.2, (filterClauses_shape p.filters p'.filters hf _).1,
      (filterClauses_shape p.filters p'.filters hf _).2, hob]
  · simp only [countQueryText, baseQuery]
    rw [hsc.1, hsc.2, (filterClauses_shape p.filters p'.filters hf _).1]

/-- C1 witness: two queries with entirely different user strings (search
terms, filter names and values) but the same shape produce character-for-
character identical query texts. -/
theorem query_text_independent_witness :
    selectQueryText c1ParamsA = selectQueryText c1ParamsB ∧
    countQueryText c1ParamsA = countQueryText c1ParamsB :=
  query_text_independent_of_bound_values c1ParamsA c1ParamsB
    (by decide) (by decide) (by decide) (by decide)

/-- The clamped page is at least 1. -/
theorem effPage_ge_one (x : Int) : 1 ≤ effPage x := by
  rw [effPage]; split <;> omega

/-- The effective page size lies in `[1, 100]`. -/
theorem effPageSize_bounds (x : Int) : 1 ≤ effPageSize x ∧ effPageSize x ≤ 100 := by
  rw [effPageSize]
  split
  · omega
  · split <;> omega

/-- `(t + s - 1) / s` (Go integer division) is the ceiling of `t / s`:
characterised by the two-sided bound. -/
theorem ceil_div_bounds (t s : Int) (ht : 0 ≤ t) (hs : 1 ≤ s) :
    s * (goDiv (t + s - 1) s - 1) < t ∧ t ≤ s * goDiv (t + s - 1) s := by
  have h0 : 0 ≤ t + s - 1 := by omega
  have hsz : (0 : Int) ≤ s := by omega
  rw [goDiv, Int.tdiv_eq_ediv h0 hsz]
  have hdm := Int.ediv_add_emod (t + s - 1) s
  have hmn := Int.emod_nonneg (t + s - 1) (by omega : s ≠ 0)
  have hml := Int.emod_lt_of_pos (t + s - 1) (by omega : (0 : Int) < s)
  set q := (t + s - 1) / s with hq
  set r := (t + s - 1) % s with hr
  constructor
  · have hexp : s * (q - 1) = s * q - s := by ring
    rw [hexp]
    omega
  · omega

/-- `wrap64` is the identity on the 64-bit `int` range: a product that does
not overflow is unchanged. -/
theorem wrap64_eq_of_lt (n : Int) (h0 : -9223372036854775808 ≤ n)
    (h : n < 9223372036854775808) : wrap64 n = n := by
  rw [wrap64]
  have hmod : (n + 9223372036854775808) % 18446744073709551616 =
      n + 9223372036854775808 :=
    Int.emod_eq_of_lt (by omega) (by omega)
  omega

/-- C3 (amended): for every listing, the effective page is `page` clamped to
≥ 1, the effective page size is `pageSize` with values below 1 replaced by
the default 10 (not clamped to 1) and values above 100 clamped to 100; the
offset is `(page-1)*pageSize` computed in wrapping 64-bit `int` arithmetic —
equal to the mathematical product whenever that product fits in an `int`,
while a product that wraps negative makes the listing fail with a store
error (PostgreSQL rejects a negative `OFFSET`); on success `total` is the
number of rows matching the table/search/filter predicates, independent of
`page`/`pageSize`, the returned page is the sorted matched set from that
offset, at most `pageSize` rows, and `totalPages` is the ceiling of
`total / pageSize`.  In particular, over 25 matching records with
`pageSize=10`, `page=2` the listing returns stored records 11–20 and
`totalPages = 3`, while `page = 2^57 + 1, pageSize = 64` wraps the offset to
`-2^63` and the listing errors. -/
theorem pagination_semantics :
    (∀ (db : List ContentRow) (slug : String) (p : ContentQueryParams),
      ((effPage p.page - 1) * effPageSize p.pageSize < 9223372036854775808 →
        goOffset p = (effPage p.page - 1) * effPageSize p.pageSize) ∧
      (goOffset p < 0 → getContentsQuery db slug p = .error ()) ∧
      (0 ≤ goOffset p →
        ∃ resp, getContentsQuery db slug p = .ok resp ∧
          resp.page = effPage p.page ∧
          resp.pageSize = effPageSize p.pageSize ∧
          1 ≤ resp.page ∧ 1 ≤ resp.pageSize ∧ resp.pageSize ≤ 100 ∧
          resp.total = ((matchedRows db slug p).length : Int) ∧
          (∀ (pg ps : Int) (resp' : ContentResponse),
            getContentsQuery db slug { p with page := pg, pageSize := ps } =
              .ok resp' →
            resp'.total = resp.total) ∧
          resp.contents =
            ((sortRows p (matchedRows db slug p)).drop (goOffset p).toNat).take
              resp.pageSize.toNat ∧
          resp.pageSize * (resp.totalPages - 1) < resp.total ∧
          resp.total ≤ resp.pageSize * resp.totalPages)) ∧
    (∃ resp, getContentsQuery db25 "t" c3Page2 = .ok resp ∧
      resp.contents = (db25.drop 10).take 10 ∧
      resp.totalPages = 3 ∧ resp.total = 25) ∧
    getContentsQuery [] "t" c3Overflow = .error () := by
  refine ⟨?_, ⟨_, rfl, rfl, rfl, rfl⟩, rfl⟩
  intro db slug p
  have hprod : 0 ≤ (effPage p.page - 1) * effPageSize p.pageSize :=
    mul_nonneg (by have := effPage_ge_one p.page; omega)
      (by have := (effPageSize_bounds p.pageSize).1; omega)
  refine ⟨?_, ?_, ?_⟩
  · intro hlt
    exact wrap64_eq_of_lt _ (by omega) hlt
  · intro hneg
    simp only [getContentsQuery]
    rw [if_pos hneg]
  · intro hpos
    refine ⟨{ contents := ((sortRows p (matchedRows db slug p)).drop
                (goOffset p).toNat).take (effPageSize p.pageSize).toNat
              total := ((matchedRows db slug p).length : Int)
              page := effPage p.page
              pageSize := effPageSize p.pageSize
              totalPages := goDiv (((matchedRows db slug p).length : Int) +
                effPageSize p.pageSize - 1) (effPageSize p.pageSize) },
      ?_, rfl, rfl, effPage_ge_one p.page, (effPageSize_bounds p.pageSize).1,
      (effPageSize_bounds p.pageSize).2, rfl, ?_, rfl, ?_, ?_⟩
    · simp only [getContentsQuery]
      rw [if_neg (not_lt.mpr hpos)]
    · intro pg ps resp' h'
      simp only [getContentsQuery] at h'
      split at h'
      · exact Except.noConfusion h'
      · rw [← Except.ok.inj h']
        rfl
    · exact (ceil_div_bounds ((matchedRows db slug p).length : Int)
        (effPageSize p.pageSize) (Int.natCast_nonneg _)
        (effPageSize_bounds p.pageSize).1).1
    · exact (ceil_div_bounds ((matchedRows db slug p).length : Int)
        (effPageSize p.pageSize) (Int.natCast_nonneg _)
        (effPageSize_bounds p.pageSize).1).2

/-- C3 witness: the theorem applied at the default listing parameters over an
empty store — the offset is in range and the query succeeds. -/
theorem pagination_semantics_witness :
    0 ≤ goOffset defParams ∧
    ∃ resp, getContentsQuery [] "t" defParams = .ok resp := by
  refine ⟨by decide, ?_⟩
  rcases ((pagination_semantics.1 [] "t" defParams).2.2 (by decide)) with
    ⟨resp, hresp, _⟩
  exact ⟨resp, hresp⟩

/-- The required-fields loop accepts exactly when every required field's name
is a key of the value map. -/
theorem required_check_none (fields : List Field) (values : ValueMap) :
    fields.find? (fun f => f.required && !(hasKey values f.name)) = none ↔
      ∀ f ∈ fields, f.required → hasKey values f.name = true := by
  rw [List.find?_eq_none]
  constructor
  · intro h f hf hreq
    have h2 := h f hf
    cases hcase : hasKey values f.name
    · exact absurd (by rw [hreq, hcase]; rfl) h2
    · rfl
  · intro h f hf
    intro hp
    simp only [Bool.and_eq_true, Bool.not_eq_true'] at hp
    rw [h f hf hp.1] at hp
    exact Bool.noConfusion hp.2

/-- The key-scanning loop accepts — given no key is empty, so the `key[:1]`
slice cannot panic — exactly when every key is a declared field name or
starts with an underscore. -/
theorem checkKeys_ok_iff (fields : List Field) (ks : List String)
    (hne : ∀ k ∈ ks, k ≠ "") :
    (checkKeys fields ks = .ok ↔
      ∀ k ∈ ks, (∃ f ∈ fields, f.name = k) ∨ k.data.head? = some '_') := by
  induction ks with
  | nil => simp [checkKeys]
  | cons k ks ih =>
    have hk : k ≠ "" := hne k (List.mem_cons_self _ _)
    have hne' : ∀ x ∈ ks, x ≠ "" := fun x hx => hne x (List.mem_cons_of_mem _ hx)
    rw [checkKeys]
    by_cases hfound : fields.any (fun f => f.name == k) = true
    · rw [if_pos hfound, ih hne']
      constructor
      · intro h k' hk'
        rcases List.mem_cons.mp hk' with rfl | hmem
        · left
          rcases List.any_eq_true.mp hfound with ⟨f, hf, hname⟩
          exact ⟨f, hf, beq_iff_eq.mp hname⟩
        · exact h k' hmem
      · exact fun h k' hmem => h k' (List.mem_cons_of_mem _ hmem)
    · rw [if_neg hfound]
      match hdata : k.data with
      | [] =>
        exfalso
        apply hk
        cases k with
        | mk d => exact congrArg String.mk hdata
      | c :: rest =>
        show (if c ≠ '_' then ValidateResult.errUnknown k else checkKeys fields ks) =
            ValidateResult.ok ↔
          ∀ k' ∈ k :: ks, (∃ f ∈ fields, f.name = k') ∨ k'.data.head? = some '_'
        by_cases hc : c ≠ '_'
        · rw [if_pos hc]
          constructor
          · intro h
            exact ValidateResult.noConfusion h
          · intro h
            exfalso
            rcases h k (List.mem_cons_self _ _) with ⟨f, hf, hname⟩ | hhead
            · exact hfound (List.any_eq_true.mpr ⟨f, hf, beq_iff_eq.mpr hname⟩)
            · rw [hdata] at hhead
              simp only [List.head?_cons, Option.some.injEq] at hhead
              exact hc hhead
        · rw [if_neg hc, ih hne']
          have hcu : c = '_' := not_ne_iff.mp hc
          constructor
          · intro h k' hk'
            rcases List.mem_cons.mp hk' with rfl | hmem
            · right
              rw [hdata, hcu]
              rfl
            · exact h k' hmem
          · exact fun h k' hmem => h k' (List.mem_cons_of_mem _ hmem)

/-- Full characterisation of validator acceptance on value maps with no
empty key. -/
theorem validate_ok_iff (fields : List Field) (values : ValueMap)
    (hne : ∀ k ∈ values.map (·.1), k ≠ "") :
    (validateContentAgainstSchema values fields = .ok ↔
      (∀ f ∈ fields, f.required → hasKey values f.name = true) ∧
      (∀ k ∈ values.map (·.1),
        (∃ f ∈ fields, f.name = k) ∨ k.data.head? = some '_')) := by
  rw [validateContentAgainstSchema]
  cases hfind : fields.find? (fun f => f.required && !(hasKey values f.name)) with
  | some f =>
    constructor
    · intro h
      exact ValidateResult.noConfusion h
    · rintro ⟨hreq, _⟩
      exfalso
      have hp := List.find?_some hfind
      simp only [Bool.and_eq_true, Bool.not_eq_true'] at hp
      rw [hreq f (List.mem_of_find?_eq_some hfind) hp.1] at hp
      exact Bool.noConfusion hp.2
  | none =>
    rw [checkKeys_ok_iff fields (values.map (·.1)) hne]
    constructor
    · intro h
      exact ⟨(required_check_none fields values).mp hfind, h⟩
    · exact fun h => h.2

/-- C4: the validator behaves as claimed on every value map whose keys are
all non-empty — acceptance iff every required field is present and every key
is a declared field name or starts with the reserved `"_"` prefix (in
particular an `"_"`-key is always accepted) — but on a value map containing
the empty string as a key it panics (`key[:1]` on an empty string) instead
of failing with an unknown-field error, so the claim as stated over *every*
value map is broken by that code bug. -/
theorem validator_characterisation :
    validateContentAgainstSchema [("", Jval.num 1)] c4Fields = .panicked ∧
    ∀ (fields : List Field) (values : ValueMap),
      (∀ k ∈ values.map (·.1), k ≠ "") →
      (validateContentAgainstSchema values fields = .ok ↔
        (∀ f ∈ fields, f.required → hasKey values f.name = true) ∧
        (∀ k ∈ values.map (·.1),
          (∃ f ∈ fields, f.name = k) ∨ k.data.head? = some '_')) :=
  ⟨rfl, validate_ok_iff⟩

/-- C4 witness: a payload with the required field present plus a reserved
`"_derived"` key is accepted against a one-field schema. -/
theorem validator_characterisation_witness :
    validateContentAgainstSchema [("name", Jval.str "a"), ("_derived", Jval.null)]
      [mkField "name" true] = .ok :=
  (validator_characterisation.2 [mkField "name" true]
    [("name", Jval.str "a"), ("_derived", Jval.null)] (by decide)).mpr (by decide)

/-- `find?` on a cons whose head satisfies the predicate. -/
theorem find?_cons_true {α : Type} (p : α → Bool) (a : α) (l : List α)
    (h : p a = true) : List.find? p (a :: l) = some a := by
  rw [List.find?_cons, h]

/-- `find?` on a cons whose head fails the predicate. -/
theorem find?_cons_false {α : Type} (p : α → Bool) (a : α) (l : List α)
    (h : p a = false) : List.find? p (a :: l) = List.find? p l := by
  rw [List.find?_cons, h]

/-- Reading back the updated id after the `UPDATE` row transformation
returns the old row with only `values` and `updatedAt` replaced. -/
theorem getContentByID_update (db : List ContentRow) (id : String)
    (vals : ValueMap) (now : Nat) :
    getContentByID (updateContentDB db id vals now) id =
      (getContentByID db id).map
        (fun r => { r with values := vals, updatedAt := now }) := by
  induction db with
  | nil => rfl
  | cons x db ih =>
    simp only [updateContentDB, List.map_cons, getContentByID]
    by_cases hx : (x.id == id) = true
    · rw [if_pos hx,
        find?_cons_true (fun y : ContentRow => y.id == id)
          { x with values := vals, updatedAt := now } _ hx,
        find?_cons_true (fun y : ContentRow => y.id == id) x db hx]
      rfl
    · have hxf : (x.id == id) = false := Bool.not_eq_true _ ▸ hx
      rw [if_neg hx,
        find?_cons_false (fun y : ContentRow => y.id == id) x _ hxf,
        find?_cons_false (fun y : ContentRow => y.id == id) x db hxf]
      simp only [updateContentDB, getContentByID] at ih
      exact ih

/-- C6: a handler update of an existing record — its schema present and the
new value map accepted by the validator — succeeds and replaces only the
record's values and its `updatedAt`: `id`, owning `tableSlug` and `createdAt`
are unchanged, `updatedAt` never decreases (given the clock did not go
backwards), and every other stored row is untouched. -/
theorem update_preserves_identity (schemas : List Schema) (db : List ContentRow)
    (id : String) (vals : ValueMap) (now : Nat) (r : ContentRow) (sch : Schema)
    (hid : id ≠ "")
    (hr : getContentByID db id = some r)
    (hs : findSchema schemas r.tableSlug = some sch)
    (hv : validateContentAgainstSchema vals sch.fields = .ok)
    (hclock : r.updatedAt ≤ now) :
    updateContentHandler schemas db id vals now =
      .ok (.ok (some { r with values := vals, updatedAt := now }),
        updateContentDB db id vals now) ∧
    ({ r with values := vals, updatedAt := now }).id = r.id ∧
    ({ r with values := vals, updatedAt := now }).tableSlug = r.tableSlug ∧
    ({ r with values := vals, updatedAt := now }).createdAt = r.createdAt ∧
    ({ r with values := vals, updatedAt := now }).values = vals ∧
    r.updatedAt ≤ ({ r with values := vals, updatedAt := now }).updatedAt ∧
    ∀ x ∈ db, x.id ≠ id → x ∈ updateContentDB db id vals now := by
  refine ⟨?_, rfl, rfl, rfl, rfl, hclock, ?_⟩
  · simp only [updateContentHandler, updateContentRepo, if_neg hid, hr, hs, hv]
    rw [getContentByID_update, hr]
    rfl
  · intro x hx hne
    simp only [updateContentDB]
    refine List.mem_map.mpr ⟨x, hx, ?_⟩
    rw [if_neg (show ¬((x.id == id) = true) from fun hh => hne (beq_iff_eq.mp hh))]

/-- C6 witness: updating record `r1` of table `t` with a validated value map
at clock 9 returns the record with new values and `updatedAt = 9`, same id,
table and `createdAt`. -/
theorem update_preserves_identity_witness :
    updateContentHandler [c6Schema] [c6Row] "r1" [("name", Jval.str "new")] 9 =
      .ok (.ok (some { c6Row with values := [("name", Jval.str "new")], updatedAt := 9 }),
        updateContentDB [c6Row] "r1" [("name", Jval.str "new")] 9) :=
  (update_preserves_identity [c6Schema] [c6Row] "r1" [("name", Jval.str "new")] 9
    c6Row c6Schema (by decide) rfl rfl rfl (by decide)).1

/-- The field-list validation loop accepts exactly when no field name is
empty, the names are pairwise distinct, and none collides with the
accumulator of already-seen names. -/
theorem validateFieldList_none_iff (fs : List Field) : ∀ (seen : List String),
    (validateFieldList fs seen = none ↔
      (∀ f ∈ fs, f.name ≠ "") ∧ (fs.map (·.name)).Nodup ∧
      ∀ n ∈ fs.map (·.name), n ∉ seen) := by
  induction fs with
  | nil => intro seen; simp [validateFieldList]
  | cons f fs ih =>
    intro seen
    rw [validateFieldList]
    by_cases h1 : f.name = ""
    · rw [if_pos h1]
      constructor
      · intro h; exact Option.noConfusion h
      · rintro ⟨hne, _⟩; exact absurd h1 (hne f (List.mem_cons_self _ _))
    · rw [if_neg h1]
      by_cases h2 : seen.contains f.name = true
      · rw [if_pos h2]
        constructor
        · intro h; exact Option.noConfusion h
        · rintro ⟨_, _, hc⟩
          exact absurd (List.elem_iff.mp h2)
            (hc f.name (by rw [List.map_cons]; exact List.mem_cons_self _ _))
      · rw [if_neg h2, ih (f.name :: seen)]
        constructor
        · rintro ⟨ha, hb, hc⟩
          refine ⟨?_, ?_, ?_⟩
          · intro g hg
            rcases List.mem_cons.mp hg with rfl | hm
            · exact h1
            · exact ha g hm
          · rw [List.map_cons, List.nodup_cons]
            exact ⟨fun hmem => (hc _ hmem) (List.mem_cons_self _ _), hb⟩
          · intro n hn
            rw [List.map_cons] at hn
            rcases List.mem_cons.mp hn with rfl | hm
            · exact fun hmem => h2 (List.elem_iff.mpr hmem)
            · exact fun hmem => (hc n hm) (List.mem_cons_of_mem _ hmem)
        · rintro ⟨ha, hb, hc⟩
          rw [List.map_cons, List.nodup_cons] at hb
          refine ⟨fun g hg => ha g (List.mem_cons_of_mem _ hg), hb.2, ?_⟩
          intro n hn hmem
          rcases List.mem_cons.mp hmem with rfl | hseen
          · exact hb.1 hn
          · exact (hc n (by rw [List.map_cons]; exact List.mem_cons_of_mem _ hn)) hseen

/-- C8: a schema-creation request whose field list is empty, contains an
empty field name, or contains two fields with the same name is rejected with
a 400 validation error and the schema registry's state is unchanged; the
same field-list validation applies to schema update. -/
theorem invalid_field_list_rejected (st : List Schema) (req : CreateSchemaRequest)
    (slug : String) (ureq : UpdateSchemaRequest) (newId : String) (now : Nat)
    (hbad : req.fields = [] ∨ (∃ f ∈ req.fields, f.name = "") ∨
      ¬(req.fields.map (·.name)).Nodup)
    (hbadU : ureq.fields = [] ∨ (∃ f ∈ ureq.fields, f.name = "") ∨
      ¬(ureq.fields.map (·.name)).Nodup) :
    (∃ msg, createSchemaHandler st req newId now = (.badRequest msg, st)) ∧
    (∃ msg, updateSchemaHandler st slug ureq now = (.badRequest msg, st)) := by
  constructor
  · by_cases hempty : req.fields.isEmpty = true
    · exact ⟨"at least one field is required",
        by simp only [createSchemaHandler, if_pos hempty]⟩
    · cases hval : validateFieldList req.fields [] with
      | some msg =>
        exact ⟨msg, by simp only [createSchemaHandler, if_neg hempty, hval]⟩
      | none =>
        exfalso
        obtain ⟨hne, hnodup, _⟩ := (validateFieldList_none_iff req.fields []).mp hval
        rcases hbad with h | ⟨f, hf, hename⟩ | hnd
        · exact hempty (by rw [h]; rfl)
        · exact (hne f hf) hename
        · exact hnd hnodup
  · by_cases hslug : slug = ""
    · exact ⟨"table slug is required",
        by simp only [updateSchemaHandler, if_pos hslug]⟩
    · by_cases hempty : ureq.fields.isEmpty = true
      · exact ⟨"at least one field is required",
          by simp only [updateSchemaHandler, if_neg hslug, if_pos hempty]⟩
      · cases hval : validateFieldList ureq.fields [] with
        | some msg =>
          exact ⟨msg,
            by simp only [updateSchemaHandler, if_neg hslug, if_neg hempty, hval]⟩
        | none =>
          exfalso
          obtain ⟨hne, hnodup, _⟩ := (validateFieldList_none_iff ureq.fields []).mp hval
          rcases hbadU with h | ⟨f, hf, hename⟩ | hnd
          · exact hempty (by rw [h]; rfl)
          · exact (hne f hf) hename
          · exact hnd hnodup

/-- C8 witness: a creation request and an update request that both duplicate
the field name `x` are rejected with a 400 and leave the empty registry
unchanged. -/
theorem invalid_field_list_rejected_witness :
    (∃ msg, createSchemaHandler [] c8BadReq "id1" 5 = (.badRequest msg, [])) ∧
    (∃ msg, updateSchemaHandler [] "t" c8BadUReq 5 = (.badRequest msg, [])) :=
  invalid_field_list_rejected [] c8BadReq "t" c8BadUReq "id1" 5
    (Or.inr (Or.inr (by decide))) (Or.inr (Or.inr (by decide)))

/-- Reading a key right after a Go map write returns the written value. -/
theorem lookupKey_setKey (vs : ValueMap) (k : String) (v : Jval) :
    lookupKey (setKey vs k v) k = some v := by
  induction vs with
  | nil =>
    simp only [setKey, lookupKey]
    rw [find?_cons_true (fun kv : String × Jval => kv.1 == k) (k, v) []
      (beq_self_eq_true k)]
    rfl
  | cons kv vs ih =>
    obtain ⟨k', v'⟩ := kv
    rw [setKey]
    by_cases h : (k' == k) = true
    · rw [if_pos h]
      simp only [lookupKey]
      rw [find?_cons_true (fun kv : String × Jval => kv.1 == k) (k, v) _
        (beq_self_eq_true k)]
      rfl
    · rw [if_neg h]
      simp only [lookupKey]
      rw [find?_cons_false (fun kv : String × Jval => kv.1 == k) (k', v') _
        (Bool.not_eq_true _ ▸ h)]
      simp only [lookupKey] at ih
      exact ih

/-- C2 (amended): over a schema whose single relational field is `f` with
config `cfg`, the enrichment step never fails the listing (it returns the
mapped contents), and for each record: if the record carries a value for
`f`, a successful lookup that found a row attaches that row's full value map
under `"_" ++ f.name ++ "_related"`; a lookup that found no row attaches the
key bound to JSON `null` (the claim said the key would be absent); a failed
lookup (e.g. a slice/map field value rejected by the driver) leaves the
record untouched; a record without the field is untouched. -/
theorem relation_enrichment (schemas : List Schema) (db contents : List ContentRow)
    (slug : String) (sch : Schema) (f : Field) (cfg : RelationConfig)
    (hs : findSchema schemas slug = some sch)
    (hr : relationFields sch.fields = [f])
    (hc : f.relationConfig = some cfg) :
    preloadRelatedData schemas db slug contents =
      .ok (contents.map (fun c =>
        { c with values := enrichValues db [f] c.values })) ∧
    (∀ (vs : ValueMap) (v : Jval), lookupKey vs f.name = some v →
      ((∀ m, getRelatedData db cfg v = .ok (some m) →
        lookupKey (enrichValues db [f] vs) ("_" ++ f.name ++ "_related") =
          some (.obj m) ∧
        ∃ row ∈ db, row.tableSlug = cfg.relatedTable ∧ row.values = m) ∧
      (getRelatedData db cfg v = .ok none →
        lookupKey (enrichValues db [f] vs) ("_" ++ f.name ++ "_related") =
          some .null) ∧
      (getRelatedData db cfg v = .error () → enrichValues db [f] vs = vs))) ∧
    (∀ vs, lookupKey vs f.name = none → enrichValues db [f] vs = vs) := by
  refine ⟨?_, ?_, ?_⟩
  · simp only [preloadRelatedData, hs, hr]
  · intro vs v hv
    have hunfold : enrichValues db [f] vs =
        (match getRelatedData db cfg v with
         | .error _ => vs
         | .ok r => setKey vs ("_" ++ f.name ++ "_related") (relatedJval r)) := by
      simp only [enrichValues, List.foldl_cons, List.foldl_nil, hv, hc]
    refine ⟨?_, ?_, ?_⟩
    · intro m hm
      constructor
      · rw [hunfold, hm]
        exact lookupKey_setKey _ _ _
      · cases hpt : paramText v with
        | error e =>
          rw [getRelatedData, hpt] at hm
          exact Except.noConfusion hm
        | ok o =>
          cases o with
          | none =>
            rw [getRelatedData, hpt] at hm
            have := Except.ok.inj hm
            exact Option.noConfusion this
          | some t =>
            rw [getRelatedData, hpt] at hm
            have hmap := Except.ok.inj hm
            rcases Option.map_eq_some'.mp hmap with ⟨row, hfind, hvals⟩
            have hpred := List.find?_some hfind
            simp only [Bool.and_eq_true, beq_iff_eq] at hpred
            exact ⟨row, List.mem_of_find?_eq_some hfind, hpred.1, hvals⟩
    · intro hm
      rw [hunfold, hm]
      exact lookupKey_setKey _ _ _
    · intro hm
      rw [hunfold, hm]
  · intro vs hnone
    simp only [enrichValues, List.foldl_cons, List.foldl_nil, hnone]

/-- C2 witness: listing table `a` whose record references `values.id = "7"`
of table `b`, where a matching `b` record exists, attaches that record's full
value map under `_bref_related`, and the enrichment returns the listing
successfully. -/
theorem relation_enrichment_witness :
    lookupKey (enrichValues [c2RowA, c2RowB] [c2RelField] c2RowA.values)
      "_bref_related" = some (.obj c2RowB.values) ∧
    preloadRelatedData [c2SchemaA] [c2RowA, c2RowB] "a" [c2RowA] =
      .ok [{ c2RowA with
        values := enrichValues [c2RowA, c2RowB] [c2RelField] c2RowA.values }] := by
  have h := relation_enrichment [c2SchemaA] [c2RowA, c2RowB] [c2RowA] "a"
    c2SchemaA c2RelField c2Cfg rfl rfl rfl
  exact ⟨((h.2.1 c2RowA.values (Jval.str "7") rfl).1 c2RowB.values rfl).1, h.1⟩

end DynamicTable
